import Mathlib

/-!
Verification of the streaming-server core against its specification.

This file gives a shallow embedding, in Lean 4, of the socket connection
handler of the repository (`src/pkg/socket/handler.go`) together with the
utility layer (`src/unnamed/part_001`, package `util`).  Pure Go functions
become Lean functions; the registry / playback stores become explicit state
records threaded through the handlers; Go panics (out-of-range indexing,
nil-pointer dereferences) are modelled by an `Option` result whose `none`
value marks the fault.

Packages of the repository that are not part of the provided sources
(`pkg/socket/client`, `pkg/playback`, `pkg/validation`, `pkg/socket/cmd`)
are modelled from the specification; every such definition carries a doc
comment starting with "Modelled from the spec:".
-/

namespace StreamingServer

/-! Part: Go string splitting

`strings.Split(s, sep)` for a non-empty separator, embedded on `List Char`.
The recursion is fuel-based (the fuel is the length of the input) so that
every use is kernel-reducible; each step either consumes the separator
(at least one character) or one character, so `s.length` fuel is enough.
-/

/-- One step of `strings.Split`: scan `s`, cutting at each leftmost
non-overlapping occurrence of `sep`. `acc` is the chunk built so far. -/
def splitGoAux (sep : List Char) : Nat → List Char → List Char → List (List Char)
  | _, [], acc => [acc]
  | 0, s, acc => [acc ++ s]
  | fuel + 1, c :: rest, acc =>
    if sep.isPrefixOf (c :: rest) then
      acc :: splitGoAux sep fuel ((c :: rest).drop sep.length) []
    else
      splitGoAux sep fuel rest (acc ++ [c])

/-- Go `strings.Split(s, sep)` for a non-empty `sep`, on character lists. -/
def splitGo (sep s : List Char) : List (List Char) :=
  splitGoAux sep s.length s []

/-- Go `strings.Split` on Lean strings (non-empty separator). -/
def goSplit (sep s : String) : List String :=
  (splitGo sep.data s.data).map fun l => String.mk l


/-! Part: Data model

The client registry and the per-room playback store, as the handler code
observes them.  `Client` mirrors `pkg/socket/client.Client` (connection id,
optional username, optional room); `PlaybackState` mirrors
`pkg/playback.StreamPlayback` as far as the handler uses it (optional
loaded stream, position, play flag, registered tick callbacks).
-/

/-- Immutable stream descriptor (url + display metadata), as far as the
handler reads it (`GetStreamURL`, `GetInfo`). -/
structure StreamInfo where
  url : String
  title : String
deriving DecidableEq

/-- Modelled from the spec: the serializable status snapshot of
`pkg/playback` (not under `src/`), §4.2: "{loaded stream metadata or
absent, position, playing flag}". -/
structure PlaybackStatus where
  stream : Option StreamInfo
  position : Nat
  playing : Bool
deriving DecidableEq

/-- Per-room playback state. `tickCallbacks` records, in registration
order, the connection id of each client whose registration installed a
periodic tick callback (`OnTick`). -/
structure PlaybackState where
  stream : Option StreamInfo
  position : Nat
  playing : Bool
  tickCallbacks : List String
deriving DecidableEq

/-- Modelled from the spec: the `GetStatus` view of `pkg/playback` (not under
`src/`) returns the snapshot view of the state, §4.2. -/
def PlaybackState.GetStatus (pb : PlaybackState) : PlaybackStatus :=
  { stream := pb.stream, position := pb.position, playing := pb.playing }

/-- Modelled from the spec: `NewStreamPlayback` (not under `src/`)
"creates a fresh, empty, paused state with no loaded stream and position
zero" (§4.2), with no tick callbacks registered yet. -/
def newStreamPlayback : PlaybackState :=
  { stream := none, position := 0, playing := false, tickCallbacks := [] }

/-- A registered client: connection id, optional username, optional room.
Mirrors `pkg/socket/client.Client` as the handler observes it through
`GetId`/`UUID`, `GetUsername`, `GetRoom`. -/
structure Client where
  id : String
  username : Option String
  room : Option String
deriving DecidableEq

/-- The shared server state the handlers read and write: the client
registry list of clients and the room-name-keyed playback store.
The Go store is a map; it is embedded as an association list with
first-match lookup (Go maps never hold a key twice, and the embedded
operations only append a key after a failed lookup). -/
structure ServerState where
  clients : List Client
  playbacks : List (String × PlaybackState)
deriving DecidableEq

/-- Lookup in the room-name-keyed playback store
(`PlaybackHandler.GetStreamPlayback`). -/
def plLookup : List (String × PlaybackState) → String → Option PlaybackState
  | [], _ => none
  | (k, v) :: rest, r => if k = r then some v else plLookup rest r

/-- Registry lookup by connection id (`clientHandler.GetClient`). -/
def findClient : List Client → String → Option Client
  | [], _ => none
  | c :: rest, cid => if c.id = cid then some c else findClient rest cid

def getClient (st : ServerState) (cid : String) : Option Client :=
  findClient st.clients cid

def getPlayback (st : ServerState) (roomName : String) : Option PlaybackState :=
  plLookup st.playbacks roomName

/-! Part: Events

The fan-out primitives of `pkg/socket/client` (not under `src/`) are
modelled from the spec, §4.3, as event constructors recording the
addressing mode; payloads mirror `client.Response`.
-/

/-- The `Extra` payload field, as the handlers fill it. -/
inductive Extra where
  | empty
  | status (s : PlaybackStatus)
  | streamInfo (i : StreamInfo)
  | userUpdate (oldUser : String) (isNewUser : String)
  | rawChat (user : Option String) (message : String)
deriving DecidableEq

/-- Mirror of `client.Response`; the `From` field is called `from_`. -/
structure Response where
  id : String := ""
  from_ : String := ""
  extra : Extra := Extra.empty
  isSystem : Bool := false
deriving DecidableEq

/-- Modelled from the spec: the delivery primitives of
`pkg/socket/client` (not under `src/`), §4.3 — `toClient` reaches exactly
one client; `broadcastFrom` reaches everyone in the room of the sender
except the sender; `broadcastAll` reaches everyone in that room;
`systemMsg`/`errorMsg` are the sender-only system and error channels. -/
inductive Event where
  | toClient (target : String) (name : String) (payload : Response)
  | broadcastFrom (sender : String) (name : String) (payload : Response)
  | broadcastAll (sender : String) (name : String) (payload : Response)
  | systemMsg (target : String) (msg : String)
  | errorMsg (target : String) (msg : String)
deriving DecidableEq

/-- Does the event reach only the one named client (sender-only delivery)? -/
def Event.isSenderOnly (e : Event) (cid : String) : Bool :=
  match e with
  | .toClient t _ _ => t == cid
  | .systemMsg t _ => t == cid
  | .errorMsg t _ => t == cid
  | _ => false

/-! Part: ParseCommandMessage (`src/pkg/socket/handler.go`, lines 165-181) -/

/-- The `message` field of a chat payload as the Go handler sees it:
absent from the map, present but not a string, or a string. -/
inductive ChatPayloadMessage where
  | absent
  | notString
  | str (s : String)
deriving DecidableEq

/-- Result type for the `(error, string, bool)` triple of `ParseCommandMessage`.
`panic` marks the unguarded `command[0]` index faulting on the empty
string (Go: index out of range). -/
inductive ParseResult where
  | panic
  | err (msg : String)
  | notCommand
  | command (cmd : String)
deriving DecidableEq

/-- Embedding of `Handler.ParseCommandMessage`: missing or non-string `message` field
is an error; otherwise the first byte is compared against `"/"`
(`string(command[0]) != "/"` — an unguarded index, faulting on the empty
string); on a match the text after the marker (`command[1:]`) is the
command. The first byte of a multi-byte UTF-8 character is never `/`, so
the byte comparison agrees with the character comparison used here. -/
def ParseCommandMessage (data : ChatPayloadMessage) : ParseResult :=
  match data with
  | .absent => .err "error: invalid client command format; message field empty"
  | .notString => .err "error: client command parse error; unable to cast message to string"
  | .str s =>
    match s.data with
    | [] => .panic
    | c :: rest => if c ≠ '/' then .notCommand else .command (String.mk rest)


/-- The handler decomposition of a detected command
(`strings.Split(command, " ")`, handler.go lines 99-103): all segments. -/
def cmdSegmentsOf (command : String) : List String :=
  goSplit " " command

/-- The argument list: `cmdSegments[1:]` when there is more than one
segment, else the empty list (handler.go lines 100-103). -/
def cmdArgsOf (command : String) : List String :=
  let segs := cmdSegmentsOf command
  if segs.length > 1 then segs.tail else []

/-- The command name passed to `ExecuteCommand`: `cmdSegments[0]`.
`goSplit` never returns an empty list, so the default is never taken. -/
def cmdNameOf (command : String) : String :=
  (cmdSegmentsOf command).headD ""


/-! Part: Room name derivation (`src/unnamed/part_001`, package `util`) -/

def ROOM_URL_SEGMENT : String := "/v/"

def ROOM_DEFAULT_LOBBY : String := "lobby"

/-- send streamsync to clients every 30 seconds -/
def ROOM_DEFAULT_STREAMSYNC_RATE : Nat := 30

/-- Embedding of `util.GetRoomNameFromRequest`: split the request URL on `"/v/"`; with
more than one segment the second (`segs[1]`) is the room name, otherwise
an error. -/
def GetRoomNameFromRequest (url : String) : Except String String :=
  match goSplit ROOM_URL_SEGMENT url with
  | _ :: s :: _ => .ok s
  | _ => .error "http request referer field had an unsupported ROOM_URL_SEGMENT format"

/-- The room a connecting request is assigned to (`RegisterClient`,
handler.go lines 191-195): the derived name, defaulting to the lobby on
error. -/
def roomNameOf (url : String) : String :=
  match GetRoomNameFromRequest url with
  | .ok r => r
  | .error _ => ROOM_DEFAULT_LOBBY


/-! Part: RegisterClient (`src/pkg/socket/handler.go`, lines 188-240) -/

/-- Embedding of `Handler.RegisterClient`: derive the room name (lobby on error),
create the client (`CreateClient` + `JoinRoom`, modelled from the spec:
those `pkg/socket/client` methods are not under `src/`; §4.5 — create a
registry entry for the connection and set its room), broadcast
`info_clientjoined` to the rest of the room; then, when the room has no
playback state, create one and register the periodic resync tick callback
(`OnTick`); when it has one and a stream is loaded, send the new client a
catch-up `streamload`. -/
def registerClient (st : ServerState) (connId url : String) : ServerState × List Event :=
  let roomName := roomNameOf url
  let c : Client := { id := connId, username := none, room := some roomName }
  let st1 : ServerState := { st with clients := st.clients ++ [c] }
  let joinedEv := Event.broadcastFrom connId "info_clientjoined" { id := connId }
  match plLookup st1.playbacks roomName with
  | none =>
    let pb := { newStreamPlayback with
      tickCallbacks := newStreamPlayback.tickCallbacks ++ [connId] }
    ({ st1 with playbacks := st1.playbacks ++ [(roomName, pb)] }, [joinedEv])
  | some pb =>
    match pb.stream with
    | some s =>
      (st1, [joinedEv, Event.toClient connId "streamload" { id := connId, extra := .streamInfo s }])
    | none => (st1, [joinedEv])

/-- Fold a sequence of connections (connection id, request URL) over
`registerClient`, discarding the emitted events. -/
def applyJoins (st : ServerState) (joins : List (String × String)) : ServerState :=
  joins.foldl (fun s j => (registerClient s j.1 j.2).1) st

def emptyServerState : ServerState := { clients := [], playbacks := [] }

/-- The periodic resync tick callback registered in `RegisterClient`
(handler.go lines 210-225), evaluated at one tick: on a tick whose
`currentTime` is not a multiple of `ROOM_DEFAULT_STREAMSYNC_RATE` it
returns without events; otherwise it re-fetches the playback of the room —
when that lookup fails the code only logs and then calls `GetStatus` on
the missing (nil) playback, a fault (`none`) — and broadcasts a
`streamsync` status snapshot to the room of the client that registered
the callback. -/
def streamsyncTickEvents (st : ServerState) (roomName connId : String)
    (currentTime : Nat) : Option (List Event) :=
  if currentTime % ROOM_DEFAULT_STREAMSYNC_RATE ≠ 0 then some []
  else
    match plLookup st.playbacks roomName with
    | none => none
    | some pb =>
      some [Event.broadcastAll connId "streamsync" { id := connId, extra := .status pb.GetStatus }]

/-! Part: request_streamsync (`src/pkg/socket/handler.go`, lines 130-154) -/

/-- The `request_streamsync` handler: unknown client or client without a
room is ignored (logged); then the playback of the room is fetched — the
body of the `!exists` guard is empty in the source, so `GetStatus` is called
on the missing (nil) playback, a fault (`none`) — and the `streamsync`
snapshot is sent to the requesting client only. -/
def handleStreamsync (st : ServerState) (connId : String) : Option (List Event) :=
  match getClient st connId with
  | none => some []
  | some c =>
    match c.room with
    | none => some []
    | some roomName =>
      match plLookup st.playbacks roomName with
      | none => none
      | some pb =>
        some [Event.toClient c.id "streamsync" { id := c.id, extra := .status pb.GetStatus }]

/-! Part: request_chatmessage (`src/pkg/socket/handler.go`, lines 79-128) -/

/-- Result of `cmd.SocketCommandHandler.ExecuteCommand` (package
`pkg/socket/cmd`, not under `src/`).  Modelled from the spec, §4.4:
execution yields a user-facing result text or an error
(UnknownCommand / ExecutionFailed); the concrete dispatch table is
abstracted as a function argument of the handler below. -/
inductive ExecResult where
  | ok (text : String)
  | err (msg : String)
deriving DecidableEq

/-- Modelled from the spec: `client.ResponseFromClientData` (not under
`src/`) builds the room-wide chat event payload from the raw client
payload (§6: `chatmessage` {id, from, extra}). -/
def ResponseFromClientData (user : Option String) (message : ChatPayloadMessage) : Response :=
  match message with
  | .str s => { from_ := user.getD "", extra := .rawChat user s }
  | _ => { from_ := user.getD "", extra := .empty }

/-- The `request_chatmessage` handler: unknown client is ignored; a parse
error is sent to the sender as a system message; a detected command is
split into name and arguments and executed (`exec` stands for the command
dispatcher), its error or non-empty result going to the sender only as a
system message; a non-command is broadcast to the whole room as a
`chatmessage` event. A faulting parse (empty message string) faults the
handler (`none`). -/
def handleChatmessage (exec : String → List String → ExecResult) (st : ServerState)
    (connId : String) (user : Option String) (message : ChatPayloadMessage) :
    Option (List Event) :=
  match getClient st connId with
  | none => some []
  | some _ =>
    match ParseCommandMessage message with
    | .panic => none
    | .err e => some [Event.systemMsg connId e]
    | .command cmdText =>
      match exec (cmdNameOf cmdText) (cmdArgsOf cmdText) with
      | .err e => some [Event.systemMsg connId e]
      | .ok result =>
        if result.length > 0 then some [Event.systemMsg connId result] else some []
    | .notCommand =>
      some [Event.broadcastAll connId "chatmessage" (ResponseFromClientData user message)]

/-! Part: UpdateClientUsername (`src/unnamed/part_001`, lines 20-75) -/

/-- Modelled from the spec: `pkg/validation.ValidateClientUsername` is
not under `src/`; §4.1 delegates the format policy to a validation
collaborator checking "non-empty, restricted character set, bounded
length". Returns the validation error, or `none` when the name is
well-formed. -/
def ValidateClientUsername (name : String) : Option String :=
  if name.length = 0 then some "error: a username cannot be empty"
  else if name.length > 32 then some "error: a username cannot exceed 32 characters"
  else if name.data.all fun c => c.isAlphanum then none
  else some "error: a username may only contain alphanumeric characters"

/-- Go `%q` formatting of a plain (escape-free) string. -/
def goQuote (s : String) : String := "\"" ++ s ++ "\""

/-- Outcome of `util.UpdateClientUsername`: an error, or the updated
registry together with the emitted events. -/
inductive UpdateResult where
  | ok (st : ServerState) (events : List Event)
  | err (msg : String)
deriving DecidableEq

/-- Embedding of `util.UpdateClientUsername`: validate the new name; fail when it
equals the current name of the client; fail when any currently-registered
client with a username already holds it; otherwise mutate the username of
the client in place (`c.UpdateUsername`, modelled from the spec: that
`pkg/socket/client` method is not under `src/` — §4.1 "otherwise mutates
in place"), send the client an `updateusername` event and the rest of the
room an `info_updateusername` event carrying the old name and whether the
client had none. -/
def UpdateClientUsername (c : Client) (username : String) (st : ServerState) : UpdateResult :=
  match ValidateClientUsername username with
  | some e => .err e
  | none =>
    let prevName := c.username.getD ""
    let hasPrevName := c.username.isSome
    if hasPrevName ∧ prevName = username then
      .err "error: you already have that username"
    else if st.clients.any fun other => other.username == some username then
      .err ("error: the username " ++ goQuote username ++ " is taken")
    else
      let newClients := st.clients.map fun o =>
        if o.id = c.id then { o with username := some username } else o
      .ok { st with clients := newClients }
        [Event.toClient c.id "updateusername" { from_ := username },
         Event.broadcastFrom c.id "info_updateusername"
           { id := c.id, from_ := username,
             extra := .userUpdate prevName (if hasPrevName then "" else "true"),
             isSystem := true }]

/-! Part: request_updateusername (`src/pkg/socket/handler.go`, lines 58-77) -/

/-- The `request_updateusername` handler: a payload without a `user`
field is logged and ignored; an unknown client makes the code call
`BroadcastErrorTo` on the nil client pointer, a fault (`none`); otherwise
`util.UpdateClientUsername` runs, and its error, if any, is delivered to
the sender only as an `info_clienterror` event. -/
def handleUpdateUsername (st : ServerState) (connId : String)
    (userField : Option String) : Option (ServerState × List Event) :=
  match userField with
  | none => some (st, [])
  | some username =>
    match getClient st connId with
    | none => none
    | some c =>
      match UpdateClientUsername c username st with
      | .err e => some (st, [Event.errorMsg connId e])
      | .ok st' ev => some (st', ev)

/-! Part: Does an event list contain a streamload catch-up for a client? -/

/-- True exactly when some event is a `streamload` delivered to exactly the
named client. -/
def hasStreamloadTo (cid : String) (evs : List Event) : Bool :=
  evs.any fun e =>
    match e with
    | .toClient t n _ => t == cid && n == "streamload"
    | _ => false

/-- Every playback state in the store has exactly one registered tick
callback. -/
def TickOnceInv (st : ServerState) : Prop :=
  ∀ r pb, plLookup st.playbacks r = some pb → pb.tickCallbacks.length = 1

/-! Part: Concrete demonstration states -/

def demoStream : StreamInfo := { url := "http://s/track", title := "track" }

def c2pb : PlaybackState :=
  { stream := some demoStream, position := 5, playing := true, tickCallbacks := ["c0"] }

/-- A registered client in room "x", whose room has a playback state. -/
def c2StOk : ServerState :=
  { clients := [{ id := "c1", username := some "al", room := some "x" }],
    playbacks := [("x", c2pb)] }

/-- A registered client in room "y", a room with no playback state. -/
def c2StMissing : ServerState :=
  { clients := [{ id := "c1", username := some "al", room := some "y" }],
    playbacks := [("x", c2pb)] }

def c3St : ServerState := { clients := [], playbacks := [("x", c2pb)] }

def c4a : Client := { id := "a1", username := none, room := some "x" }

def c4b : Client := { id := "b2", username := none, room := some "x" }

def c4St : ServerState := { clients := [c4a, c4b], playbacks := [] }

/-- State `c4St` after `c4a` successfully takes the username "bob". -/
def c4St1 : ServerState :=
  { clients := [{ c4a with username := some "bob" }, c4b], playbacks := [] }

def c7exec : String → List String → ExecResult := fun n _ =>
  if n = "pause" then .err "error: no stream has been loaded" else .ok ""

def c7St : ServerState :=
  { clients := [{ id := "c1", username := some "al", room := some "x" }], playbacks := [] }

def c9St : ServerState :=
  { clients := [{ id := "d1", username := some "dan", room := some "x" },
                { id := "d2", username := none, room := some "x" }],
    playbacks := [] }

def c5pb : PlaybackState :=
  { stream := none, position := 0, playing := false, tickCallbacks := ["c9"] }

def c5St : ServerState := { clients := [], playbacks := [("x", c5pb)] }

/-! Part: Helper lemmas -/

/-- Looking a key up in an appended store searches the left part first. -/
theorem plLookup_append (ps qs : List (String × PlaybackState)) (r : String) :
    plLookup (ps ++ qs) r =
      match plLookup ps r with
      | some v => some v
      | none => plLookup qs r := by
  induction ps with
  | nil => simp [plLookup]
  | cons p rest ih =>
    obtain ⟨k, v⟩ := p
    by_cases hk : k = r <;> simp [plLookup, hk, ih]

/-- A list with `l` as a contiguous left part passes `isPrefixOf`. -/
theorem isPrefixOf_append_self (l t : List Char) : l.isPrefixOf (l ++ t) = true := by
  induction l with
  | nil => cases t <;> rfl
  | cons c rest ih => simp [List.isPrefixOf, ih]

/-- A failing Bool-level prefix test refutes the Prop-level prefix. -/
theorem not_prefix_of_isPrefixOf_false {a b : List Char}
    (h : a.isPrefixOf b = false) : ¬ a <+: b := by
  intro hp
  rw [← List.isPrefixOf_iff_prefix] at hp
  rw [h] at hp
  exact Bool.noConfusion hp

/-- When the separator occurs nowhere in `s`, the split is `[s]`. -/
theorem splitGoAux_no_occurrence (sep : List Char) :
    ∀ (fuel : Nat) (s acc : List Char), s.length ≤ fuel →
      (∀ i, i < s.length → sep.isPrefixOf (s.drop i) = false) →
      splitGoAux sep fuel s acc = [acc ++ s] := by
  intro fuel
  induction fuel with
  | zero =>
    intro s acc hlen hocc
    have hs : s = [] := List.length_eq_zero.mp (Nat.le_zero.mp hlen)
    subst hs
    simp [splitGoAux]
  | succ f ih =>
    intro s acc hlen hocc
    cases s with
    | nil => simp [splitGoAux]
    | cons c rest =>
      have h0 : sep.isPrefixOf (c :: rest) = false := by simpa using hocc 0 (by simp)
      have hlen' : rest.length ≤ f := by
        simp only [List.length_cons] at hlen
        omega
      have hocc' : ∀ i, i < rest.length → sep.isPrefixOf (rest.drop i) = false := by
        intro i hi
        simpa using hocc (i + 1) (by simpa using Nat.succ_lt_succ hi)
      simp only [splitGoAux, h0]
      rw [ih rest (acc ++ [c]) hlen' hocc']
      simp

/-- When the first occurrence of the separator in `a ++ sep ++ b` is the
middle `sep` and it does not occur in `b`, the split is `[acc ++ a, b]`. -/
theorem splitGoAux_found (sep : List Char) (hsep : sep ≠ []) :
    ∀ (a : List Char) (fuel : Nat) (b acc : List Char),
      (a ++ sep ++ b).length ≤ fuel →
      (∀ i, i < a.length → sep.isPrefixOf ((a ++ sep ++ b).drop i) = false) →
      (∀ i, i < b.length → sep.isPrefixOf (b.drop i) = false) →
      splitGoAux sep fuel (a ++ sep ++ b) acc = [acc ++ a, b] := by
  intro a
  induction a with
  | nil =>
    intro fuel b acc hlen hocca hoccb
    cases hsepc : sep with
    | nil => exact absurd hsepc hsep
    | cons c sep' =>
      subst hsepc
      cases fuel with
      | zero => simp at hlen
      | succ f =>
        have hpre : (c :: sep').isPrefixOf (c :: (sep' ++ b)) = true :=
          isPrefixOf_append_self (c :: sep') b
        have hdrop : List.drop (c :: sep').length (c :: (sep' ++ b)) = b :=
          List.drop_left (c :: sep') b
        have hblen : b.length ≤ f := by
          simp only [List.nil_append, List.length_append, List.length_cons] at hlen
          omega
        have hstep : splitGoAux (c :: sep') (f + 1) ([] ++ (c :: sep') ++ b) acc
            = acc :: splitGoAux (c :: sep') f b [] := by
          simp [splitGoAux, hpre, hdrop]
        rw [hstep, splitGoAux_no_occurrence (c :: sep') f b [] hblen hoccb]
        simp
  | cons x a' ih =>
    intro fuel b acc hlen hocca hoccb
    cases fuel with
    | zero => simp at hlen
    | succ f =>
      have h0 : sep.isPrefixOf (x :: (a' ++ (sep ++ b))) = false := by
        simpa using hocca 0 (by simp)
      have hlen' : (a' ++ sep ++ b).length ≤ f := by
        simp only [List.cons_append, List.length_cons, List.length_append] at hlen ⊢
        omega
      have hocca' : ∀ i, i < a'.length → sep.isPrefixOf ((a' ++ sep ++ b).drop i) = false := by
        intro i hi
        simpa using hocca (i + 1) (by simpa using Nat.succ_lt_succ hi)
      have h0' : ¬ sep <+: (x :: (a' ++ (sep ++ b))) := not_prefix_of_isPrefixOf_false h0
      have hstep : splitGoAux sep (f + 1) ((x :: a') ++ sep ++ b) acc
          = splitGoAux sep f (a' ++ sep ++ b) (acc ++ [x]) := by
        simp [splitGoAux, h0']
      rw [hstep, ih f b (acc ++ [x]) hlen' hocca' hoccb]
      simp

/-- Appending strings acts as list append on the underlying data. -/
theorem string_data_append (s t : String) : (s ++ t).data = s.data ++ t.data := rfl

/-- Rebuilding a string from its data gives it back. -/
theorem string_mk_data (s : String) : String.mk s.data = s := rfl

/-- String-level: no occurrence of the separator leaves one segment. -/
theorem goSplit_no_segment (sep s : String)
    (h : ∀ i, i < s.data.length → sep.data.isPrefixOf (s.data.drop i) = false) :
    goSplit sep s = [s] := by
  unfold goSplit splitGo
  rw [splitGoAux_no_occurrence sep.data s.data.length s.data [] (Nat.le_refl _) h]
  simp [string_mk_data]

/-- String-level: with the middle separator as first occurrence and none
in the tail, the split yields the two surrounding segments. -/
theorem goSplit_found (sep pre name : String) (hsep : sep.data ≠ [])
    (h1 : ∀ i, i < pre.data.length →
      sep.data.isPrefixOf ((pre ++ sep ++ name).data.drop i) = false)
    (h2 : ∀ i, i < name.data.length → sep.data.isPrefixOf (name.data.drop i) = false) :
    goSplit sep (pre ++ sep ++ name) = [pre, name] := by
  unfold goSplit splitGo
  have hdata : (pre ++ sep ++ name).data = pre.data ++ sep.data ++ name.data := rfl
  rw [hdata] at h1 ⊢
  rw [splitGoAux_found sep.data hsep pre.data (pre.data ++ sep.data ++ name.data).length
    name.data [] (Nat.le_refl _) h1 h2]
  simp [string_mk_data]

/-- The splitter never produces the empty list of chunks. -/
theorem splitGoAux_ne_nil (sep : List Char) :
    ∀ (fuel : Nat) (s acc : List Char), splitGoAux sep fuel s acc ≠ [] := by
  intro fuel
  induction fuel with
  | zero =>
    intro s acc
    cases s <;> simp [splitGoAux]
  | succ f ih =>
    intro s acc
    cases s with
    | nil => simp [splitGoAux]
    | cons c rest =>
      simp only [splitGoAux]
      split
      · simp
      · exact ih rest (acc ++ [c])

/-- Any fuel at least the input length gives the same split. -/
theorem splitGoAux_fuel_eq (sep : List Char) (hsep : sep ≠ []) :
    ∀ (f1 f2 : Nat) (s acc : List Char), s.length ≤ f1 → s.length ≤ f2 →
      splitGoAux sep f1 s acc = splitGoAux sep f2 s acc := by
  intro f1
  induction f1 with
  | zero =>
    intro f2 s acc h1 h2
    have hs : s = [] := List.length_eq_zero.mp (Nat.le_zero.mp h1)
    subst hs
    cases f2 <;> rfl
  | succ g1 ih =>
    intro f2 s acc h1 h2
    cases s with
    | nil => cases f2 <;> rfl
    | cons c rest =>
      cases f2 with
      | zero => simp at h2
      | succ g2 =>
        have hsl : 1 ≤ sep.length := by
          cases sep with
          | nil => exact absurd rfl hsep
          | cons a l => simp
        simp only [splitGoAux]
        by_cases hpre : sep.isPrefixOf (c :: rest) = true
        · rw [if_pos hpre, if_pos hpre]
          have hd1 : ((c :: rest).drop sep.length).length ≤ g1 := by
            simp only [List.length_drop, List.length_cons]
            simp only [List.length_cons] at h1
            omega
          have hd2 : ((c :: rest).drop sep.length).length ≤ g2 := by
            simp only [List.length_drop, List.length_cons]
            simp only [List.length_cons] at h2
            omega
          exact congrArg (fun l => acc :: l) (ih g2 _ [] hd1 hd2)
        · rw [if_neg hpre, if_neg hpre]
          exact ih g2 rest (acc ++ [c])
            (by simp only [List.length_cons] at h1; omega)
            (by simp only [List.length_cons] at h2; omega)

/-- A list without spaces has no occurrence of the one-space separator. -/
theorem no_space_no_occurrence :
    ∀ (l : List Char), ¬ ' ' ∈ l →
      ∀ i, i < l.length → [' '].isPrefixOf (l.drop i) = false := by
  intro l
  induction l with
  | nil =>
    intro _ i hi
    simp at hi
  | cons c rest ih =>
    intro hmem i hi
    have hc : ¬ c = ' ' := fun h => hmem (by simp [h])
    have hrest : ¬ ' ' ∈ rest := fun h => hmem (List.mem_cons_of_mem c h)
    cases i with
    | zero =>
      simp only [List.drop_zero]
      simp [List.isPrefixOf]
      exact fun h => hc h.symm
    | succ j =>
      simp only [List.drop_succ_cons]
      exact ih hrest j (by simp only [List.length_cons] at hi; omega)

/-- Splitting on the single-space separator: the chars before the first
space form the head chunk and the remainder is split on its own. -/
theorem splitGoAux_space_cons :
    ∀ (a : List Char) (fuel : Nat) (b acc : List Char),
      (a ++ ' ' :: b).length ≤ fuel → ¬ ' ' ∈ a →
      splitGoAux [' '] fuel (a ++ ' ' :: b) acc
        = (acc ++ a) :: splitGoAux [' '] b.length b [] := by
  intro a
  induction a with
  | nil =>
    intro fuel b acc hlen hmem
    cases fuel with
    | zero => simp at hlen
    | succ f =>
      have hpre : [' '].isPrefixOf (' ' :: b) = true := by simp [List.isPrefixOf]
      have hblen : b.length ≤ f := by
        simp only [List.nil_append, List.length_cons] at hlen
        omega
      simp only [List.nil_append, splitGoAux, hpre]
      have hdrop : List.drop ([' '] : List Char).length (' ' :: b) = b := rfl
      rw [hdrop, splitGoAux_fuel_eq [' '] (by simp) f b.length b [] hblen (Nat.le_refl _)]
      simp
  | cons x a' ih =>
    intro fuel b acc hlen hmem
    have hx : ¬ x = ' ' := fun h => hmem (by simp [h])
    have hmem' : ¬ ' ' ∈ a' := fun h => hmem (List.mem_cons_of_mem x h)
    cases fuel with
    | zero => simp at hlen
    | succ f =>
      have hpre : [' '].isPrefixOf (x :: (a' ++ ' ' :: b)) = false := by
        simp [List.isPrefixOf]
        exact fun h => hx h.symm
      have hpre' : ¬ [' '] <+: (x :: (a' ++ ' ' :: b)) :=
        not_prefix_of_isPrefixOf_false hpre
      have hlen' : (a' ++ ' ' :: b).length ≤ f := by
        simp only [List.cons_append, List.length_cons] at hlen
        omega
      have hstep : splitGoAux [' '] (f + 1) ((x :: a') ++ ' ' :: b) acc
          = splitGoAux [' '] f (a' ++ ' ' :: b) (acc ++ [x]) := by
        simp [splitGoAux, hpre']
      rw [hstep, ih f b (acc ++ [x]) hlen' hmem']
      simp

/-- String-level: the chunk before the first space, then the split of the
remainder. -/
theorem goSplit_space_cons (name rest : String) (h : ¬ ' ' ∈ name.data) :
    goSplit " " (name ++ " " ++ rest) = name :: goSplit " " rest := by
  unfold goSplit splitGo
  have hdata : (name ++ " " ++ rest).data = name.data ++ ' ' :: rest.data := by
    rw [string_data_append, string_data_append, List.append_assoc]
    rfl
  rw [hdata]
  rw [show (" " : String).data = [' '] from rfl]
  rw [splitGoAux_space_cons name.data (name.data ++ ' ' :: rest.data).length rest.data []
    (Nat.le_refl _) h]
  simp [string_mk_data]

/-- The split of any string has at least one chunk. -/
theorem goSplit_ne_nil (sep s : String) : goSplit sep s ≠ [] := by
  unfold goSplit splitGo
  intro h
  exact splitGoAux_ne_nil sep.data s.data.length s.data [] (List.map_eq_nil_iff.mp h)

/-! Part: C1 / C10: command detection -/

/-- C1 (amended): a message is a command exactly when its first character
is `/`; the text after the marker is split on single space characters
with empty chunks kept — a text with no space is itself the command name
and has no arguments, and a text `name ++ " " ++ rest` with no space in
`name` has command name `name` and as arguments exactly the space-split
chunks of `rest` (so repeated or trailing spaces yield empty-string
arguments and a tab does not separate tokens) — hence `/play` gives
command "play" with no arguments and "hello there" is not a command; the
one-character message `/` yields a command with an empty name and no
error (the "invalid command format" error arises only for a payload
whose message field is absent). -/
theorem C1_command_detection :
    (∀ s : String,
      (∃ c, ParseCommandMessage (.str s) = .command c) ↔ s.data.head? = some '/')
    ∧ (∀ t : String, ¬ ' ' ∈ t.data → cmdNameOf t = t ∧ cmdArgsOf t = [])
    ∧ (∀ name rest : String, ¬ ' ' ∈ name.data →
        cmdNameOf (name ++ " " ++ rest) = name
        ∧ cmdArgsOf (name ++ " " ++ rest) = goSplit " " rest)
    ∧ ParseCommandMessage (.str "/play") = .command "play"
    ∧ cmdNameOf "play" = "play" ∧ cmdArgsOf "play" = []
    ∧ ParseCommandMessage (.str "hello there") = .notCommand
    ∧ ParseCommandMessage (.str "/") = .command "" := by
  refine ⟨fun s => ?_, ?_, ?_, by decide, by decide, by decide, by decide, by decide⟩
  · cases hs : s.data with
    | nil => simp [ParseCommandMessage, hs]
    | cons c rest =>
      by_cases hc : c = '/'
      · subst hc
        simp [ParseCommandMessage, hs]
      · simp [ParseCommandMessage, hs, hc]
  · intro t ht
    have hsplit : goSplit " " t = [t] :=
      goSplit_no_segment " " t (no_space_no_occurrence t.data ht)
    exact ⟨by simp [cmdNameOf, cmdSegmentsOf, hsplit],
      by simp [cmdArgsOf, cmdSegmentsOf, hsplit]⟩
  · intro name rest hname
    have hsplit : goSplit " " (name ++ " " ++ rest) = name :: goSplit " " rest :=
      goSplit_space_cons name rest hname
    have hpos : 0 < (goSplit " " rest).length :=
      List.length_pos.mpr (goSplit_ne_nil " " rest)
    constructor
    · simp [cmdNameOf, cmdSegmentsOf, hsplit]
    · simp only [cmdArgsOf, cmdSegmentsOf, hsplit]
      have hgt : (name :: goSplit " " rest).length > 1 := by
        simp only [List.length_cons]
        omega
      rw [if_pos hgt]
      rfl

/-- C1, counterexample to the claim as stated: the one-character message
`/` does not yield an "invalid command format" error but a command with
an empty name; and the post-marker split is not a whitespace
tokenization — a trailing space yields an empty-string argument rather
than the empty sequence, and a tab does not separate the name from an
argument. -/
theorem C1_detection_counterexample :
    ParseCommandMessage (ChatPayloadMessage.str "/") = ParseResult.command ""
    ∧ cmdArgsOf "play " = [""]
    ∧ cmdNameOf "play\tx" = "play\tx" ∧ cmdArgsOf "play\tx" = [] := by
  decide

/-- C1, witness: the no-space clause and the first-space clause applied
at concrete inputs. -/
theorem C1_command_detection_witness :
    (cmdNameOf "pause" = "pause" ∧ cmdArgsOf "pause" = [])
    ∧ (cmdNameOf ("add" ++ " " ++ "url x") = "add"
      ∧ cmdArgsOf ("add" ++ " " ++ "url x") = goSplit " " "url x") :=
  ⟨C1_command_detection.2.1 "pause" (by decide),
   C1_command_detection.2.2.1 "add" "url x" (by decide)⟩

/-- C10: evaluating `ParseCommandMessage` at the failing input — a payload
whose message field is the empty string — reaches the unguarded
`command[0]` index and faults instead of returning a result. -/
theorem C10_empty_message_faults :
    ParseCommandMessage (ChatPayloadMessage.str "") = ParseResult.panic := by
  decide

/-! Part: C2: explicit resync requests -/

/-- C2: evaluating the `request_streamsync` handler. For a registered
client whose room has a playback state, the snapshot goes to the
requesting client only; for a registered client whose room has none, the
handler faults (the `!exists` guard in the source is empty, and
`GetStatus` is called on the missing playback) instead of treating the
miss as a no-op. -/
theorem C2_streamsync_eval :
    handleStreamsync c2StOk "c1"
      = some [Event.toClient "c1" "streamsync" { id := "c1", extra := .status c2pb.GetStatus }]
    ∧ handleStreamsync c2StMissing "c1" = none := by
  decide

/-! Part: C3: resync cadence -/

/-- C3: for a room with a playback state, the periodic resync tick
callback broadcasts the `streamsync` status snapshot exactly on the ticks
whose position is a multiple of 30 (`ROOM_DEFAULT_STREAMSYNC_RATE`), and
emits nothing on every other tick. -/
theorem C3_resync_cadence :
    ∀ (st : ServerState) (roomName connId : String) (t : Nat) (pb : PlaybackState),
      plLookup st.playbacks roomName = some pb →
      (streamsyncTickEvents st roomName connId t
          = some [Event.broadcastAll connId "streamsync" { id := connId, extra := .status pb.GetStatus }]
        ↔ t % 30 = 0)
      ∧ (streamsyncTickEvents st roomName connId t = some [] ↔ t % 30 ≠ 0) := by
  intro st roomName connId t pb hpb
  by_cases h30 : t % 30 = 0 <;>
    simp [streamsyncTickEvents, ROOM_DEFAULT_STREAMSYNC_RATE, h30, hpb]

/-- C3, witness: in a concrete store holding a playback for room "x", the
callback broadcasts at tick 60 and emits nothing at tick 7. -/
theorem C3_resync_cadence_witness :
    streamsyncTickEvents c3St "x" "c1" 60
      = some [Event.broadcastAll "c1" "streamsync" { id := "c1", extra := .status c2pb.GetStatus }]
    ∧ streamsyncTickEvents c3St "x" "c1" 7 = some [] :=
  ⟨(C3_resync_cadence c3St "x" "c1" 60 c2pb (by decide)).1.mpr (by decide),
   (C3_resync_cadence c3St "x" "c1" 7 c2pb (by decide)).2.mpr (by decide)⟩

/-! Part: C4: username update rules -/

/-- C4: `UpdateClientUsername` fails with the validation error on a
malformed name; fails with "you already have that username" when the new
name equals the current name of the client; fails with the "taken" conflict
when a currently-registered client already holds the name; otherwise
mutates the username of the client in place.  In particular, after a
client takes "bob", a request by a second client for "bob" fails with the conflict
while the first client keeps "bob". -/
theorem C4_update_username_rules :
    (∀ (c : Client) (n : String) (st : ServerState) (e : String),
      ValidateClientUsername n = some e → UpdateClientUsername c n st = .err e)
    ∧ (∀ (c : Client) (n : String) (st : ServerState),
      ValidateClientUsername n = none → c.username = some n →
      UpdateClientUsername c n st = .err "error: you already have that username")
    ∧ (∀ (c : Client) (n : String) (st : ServerState),
      ValidateClientUsername n = none → c.username ≠ some n →
      (st.clients.any fun other => other.username == some n) = true →
      UpdateClientUsername c n st = .err ("error: the username " ++ goQuote n ++ " is taken"))
    ∧ (∀ (c : Client) (n : String) (st : ServerState),
      ValidateClientUsername n = none → c.username ≠ some n →
      (st.clients.any fun other => other.username == some n) = false →
      UpdateClientUsername c n st
        = .ok { st with clients := st.clients.map fun o =>
              if o.id = c.id then { o with username := some n } else o }
            [Event.toClient c.id "updateusername" { from_ := n },
             Event.broadcastFrom c.id "info_updateusername"
               { id := c.id, from_ := n,
                 extra := .userUpdate (c.username.getD "")
                   (if c.username.isSome then "" else "true"),
                 isSystem := true }])
    ∧ (UpdateClientUsername c4a "bob" c4St
        = .ok c4St1
            [Event.toClient "a1" "updateusername" { from_ := "bob" },
             Event.broadcastFrom "a1" "info_updateusername"
               { id := "a1", from_ := "bob", extra := .userUpdate "" "true", isSystem := true }]
      ∧ UpdateClientUsername c4b "bob" c4St1
          = .err ("error: the username " ++ goQuote "bob" ++ " is taken")
      ∧ findClient c4St1.clients "a1" = some { c4a with username := some "bob" }) := by
  refine ⟨?_, ?_, ?_, ?_, by decide, by decide, by decide⟩
  · intro c n st e hv
    simp [UpdateClientUsername, hv]
  · intro c n st hv hc
    simp [UpdateClientUsername, hv, hc]
  · intro c n st hv hc htaken
    cases hcu : c.username with
    | none => simp [UpdateClientUsername, hv, hcu, htaken]
    | some m =>
      have hm : ¬ m = n := by
        intro h
        exact hc (by simp [hcu, h])
      simp [UpdateClientUsername, hv, hcu, hm, htaken]
  · intro c n st hv hc hfree
    cases hcu : c.username with
    | none => simp [UpdateClientUsername, hv, hcu, hfree]
    | some m =>
      have hm : ¬ m = n := by
        intro h
        exact hc (by simp [hcu, h])
      simp [UpdateClientUsername, hv, hcu, hm, hfree]

/-- C4, witness: a malformed (empty) name fails with the validation
error, and in the concrete two-client state where "a1" holds "bob", the
request by the other client for "bob" fails with the conflict. -/
theorem C4_update_username_rules_witness :
    UpdateClientUsername c4a "" c4St = .err "error: a username cannot be empty"
    ∧ UpdateClientUsername c4b "bob" c4St1
        = .err ("error: the username " ++ goQuote "bob" ++ " is taken") :=
  ⟨C4_update_username_rules.1 c4a "" c4St "error: a username cannot be empty" (by decide),
   C4_update_username_rules.2.2.1 c4b "bob" c4St1 (by decide) (by decide) (by decide)⟩

/-! Part: C9: username-change events -/

/-- A successful `UpdateClientUsername` emits exactly the
`updateusername` event to the client and the `info_updateusername` event
to the rest of the room. -/
theorem updateUsername_ok_events (c : Client) (n : String) (st st' : ServerState)
    (ev : List Event) (h : UpdateClientUsername c n st = .ok st' ev) :
    ev = [Event.toClient c.id "updateusername" { from_ := n },
      Event.broadcastFrom c.id "info_updateusername"
        { id := c.id, from_ := n,
          extra := .userUpdate (c.username.getD "") (if c.username.isSome then "" else "true"),
          isSystem := true }] := by
  cases hv : ValidateClientUsername n with
  | some e => simp [UpdateClientUsername, hv] at h
  | none =>
    rw [UpdateClientUsername, hv] at h
    dsimp only at h
    split at h
    · simp at h
    · split at h
      · simp at h
      · rw [UpdateResult.ok.injEq] at h
        exact h.2.symm

/-- C9: on a successful username change the server sends the changing
client an `updateusername` event whose payload carries the new name, and
broadcasts an `info_updateusername` event to the rest of the room whose
payload carries the client id, the new name, the old name (empty when
there was none) and the new-user marker; on failure only the sender
receives the error. -/
theorem C9_username_change_events :
    (∀ (st : ServerState) (connId : String) (c : Client) (n : String)
        (st' : ServerState) (ev : List Event),
      getClient st connId = some c → UpdateClientUsername c n st = .ok st' ev →
      handleUpdateUsername st connId (some n) = some (st', ev)
      ∧ ev = [Event.toClient c.id "updateusername" { from_ := n },
          Event.broadcastFrom c.id "info_updateusername"
            { id := c.id, from_ := n,
              extra := .userUpdate (c.username.getD "") (if c.username.isSome then "" else "true"),
              isSystem := true }])
    ∧ (∀ (st : ServerState) (connId : String) (c : Client) (n e : String),
      getClient st connId = some c → UpdateClientUsername c n st = .err e →
      handleUpdateUsername st connId (some n) = some (st, [Event.errorMsg connId e])) := by
  constructor
  · intro st connId c n st' ev hget hok
    exact ⟨by simp [handleUpdateUsername, hget, hok],
      updateUsername_ok_events c n st st' ev hok⟩
  · intro st connId c n e hget herr
    simp [handleUpdateUsername, hget, herr]

/-- C9, witness: in the concrete two-client room, client "d2" (no
previous name) successfully takes "eve" and the two events carry the
specified payloads, while a conflicting request by "d2" for the taken
name "dan" produces a sender-only error event. -/
theorem C9_username_change_events_witness :
    (handleUpdateUsername c9St "d2" (some "eve")
        = some ({ c9St with clients := c9St.clients.map fun o =>
              if o.id = "d2" then { o with username := some "eve" } else o },
            [Event.toClient "d2" "updateusername" { from_ := "eve" },
             Event.broadcastFrom "d2" "info_updateusername"
               { id := "d2", from_ := "eve", extra := .userUpdate "" "true", isSystem := true }])
      ∧ [Event.toClient "d2" "updateusername" { from_ := "eve" },
          Event.broadcastFrom "d2" "info_updateusername"
            { id := "d2", from_ := "eve", extra := .userUpdate "" "true", isSystem := true }]
        = [Event.toClient "d2" "updateusername" { from_ := "eve" },
           Event.broadcastFrom "d2" "info_updateusername"
             { id := "d2", from_ := "eve", extra := .userUpdate "" "true", isSystem := true }])
    ∧ handleUpdateUsername c9St "d2" (some "dan")
        = some (c9St, [Event.errorMsg "d2" ("error: the username " ++ goQuote "dan" ++ " is taken")]) := by
  constructor
  · have h := C9_username_change_events.1 c9St "d2"
      { id := "d2", username := none, room := some "x" } "eve"
      { c9St with clients := c9St.clients.map fun o =>
          if o.id = "d2" then { o with username := some "eve" } else o }
      [Event.toClient "d2" "updateusername" { from_ := "eve" },
       Event.broadcastFrom "d2" "info_updateusername"
         { id := "d2", from_ := "eve", extra := .userUpdate "" "true", isSystem := true }]
      (by decide) (by decide)
    exact ⟨h.1, h.2⟩
  · exact C9_username_change_events.2 c9St "d2"
      { id := "d2", username := none, room := some "x" } "dan"
      ("error: the username " ++ goQuote "dan" ++ " is taken")
      (by decide) (by decide)

/-! Part: C7: chat message dispatch -/

/-- C7 (amended): for an inbound chat message from a registered client
whose message text is non-empty — the empty text faults the handler via
the unguarded first-character index — a detected command is executed and
its error, or its non-empty result, is delivered to the sender only as a
system message (every emitted event is sender-only), while a non-command
message is broadcast to the whole room as a `chatmessage` event. -/
theorem C7_chat_dispatch :
    ∀ (exe : String → List String → ExecResult) (st : ServerState)
      (connId : String) (user : Option String) (s : String),
      getClient st connId ≠ none → s ≠ "" →
      (s.data.head? = some '/' →
        (∀ e, exe (cmdNameOf (String.mk s.data.tail)) (cmdArgsOf (String.mk s.data.tail)) = .err e →
          handleChatmessage exe st connId user (.str s) = some [Event.systemMsg connId e])
        ∧ (∀ r, exe (cmdNameOf (String.mk s.data.tail)) (cmdArgsOf (String.mk s.data.tail)) = .ok r →
          (r ≠ "" → handleChatmessage exe st connId user (.str s) = some [Event.systemMsg connId r])
          ∧ (r = "" → handleChatmessage exe st connId user (.str s) = some []))
        ∧ (∀ evs, handleChatmessage exe st connId user (.str s) = some evs →
          evs.all (fun e => e.isSenderOnly connId) = true))
      ∧ (s.data.head? ≠ some '/' →
        handleChatmessage exe st connId user (.str s)
          = some [Event.broadcastAll connId "chatmessage" (ResponseFromClientData user (.str s))]) := by
  intro exe st connId user s hget hs
  obtain ⟨c, hc⟩ : ∃ c, getClient st connId = some c := by
    cases hg : getClient st connId with
    | none => exact absurd hg hget
    | some c => exact ⟨c, rfl⟩
  obtain ⟨sd⟩ := s
  cases hsd : sd with
  | nil =>
    subst hsd
    simp at hs
  | cons ch rest =>
    subst hsd
    by_cases hch : ch = '/'
    · subst hch
      have hkey : handleChatmessage exe st connId user (.str ⟨'/' :: rest⟩)
          = match exe (cmdNameOf (String.mk rest)) (cmdArgsOf (String.mk rest)) with
            | .err e => some [Event.systemMsg connId e]
            | .ok r => if r.length > 0 then some [Event.systemMsg connId r] else some [] := by
        rw [handleChatmessage, hc]
        rfl
      refine ⟨fun _ => ⟨?_, ?_, ?_⟩, fun hne => absurd rfl hne⟩
      · intro e hexe
        have hexe' : exe (cmdNameOf (String.mk rest)) (cmdArgsOf (String.mk rest))
            = .err e := hexe
        rw [hkey]
        simp only [hexe']
      · intro r hexe
        have hexe' : exe (cmdNameOf (String.mk rest)) (cmdArgsOf (String.mk rest))
            = .ok r := hexe
        constructor
        · intro hr
          have hlen : r.length > 0 := by
            obtain ⟨rd⟩ := r
            cases rd with
            | nil => exact absurd rfl hr
            | cons a l => simp [String.length]
          rw [hkey]
          simp only [hexe']
          rw [if_pos hlen]
        · intro hr
          subst hr
          rw [hkey]
          simp only [hexe']
          have h0 : ¬ (("" : String).length > 0) := by decide
          rw [if_neg h0]
      · intro evs hevs
        rw [hkey] at hevs
        cases hexe : exe (cmdNameOf (String.mk rest)) (cmdArgsOf (String.mk rest)) with
        | err e =>
          simp only [hexe, Option.some.injEq] at hevs
          subst hevs
          simp [Event.isSenderOnly]
        | ok r =>
          by_cases hlen : r.length > 0
          · simp only [hexe, if_pos hlen, Option.some.injEq] at hevs
            subst hevs
            simp [Event.isSenderOnly]
          · simp only [hexe, if_neg hlen, Option.some.injEq] at hevs
            subst hevs
            simp
    · refine ⟨fun hhd => ?_, fun _ => ?_⟩
      · simp at hhd
        exact absurd hhd hch
      · simp [handleChatmessage, hc, ParseCommandMessage, hch]

/-- C7, counterexample to the claim as stated: the empty chat message
does not parse as a command, yet it is not broadcast to the room — the
handler faults on the unguarded first-character index. -/
theorem C7_empty_message_counterexample :
    handleChatmessage c7exec c7St "c1" none (ChatPayloadMessage.str "") = none := by
  decide

/-- C7, witness: in a concrete room, `/pause` from the registered client
"c1" yields a sender-only system message carrying the executor error,
and the plain message "hi all" is broadcast to the whole room as a
`chatmessage` event. -/
theorem C7_chat_dispatch_witness :
    handleChatmessage c7exec c7St "c1" none (.str "/pause")
      = some [Event.systemMsg "c1" "error: no stream has been loaded"]
    ∧ handleChatmessage c7exec c7St "c1" (some "al") (.str "hi all")
      = some [Event.broadcastAll "c1" "chatmessage"
          (ResponseFromClientData (some "al") (.str "hi all"))] :=
  ⟨((C7_chat_dispatch c7exec c7St "c1" none "/pause" (by decide) (by decide)).1
      (by decide)).1 "error: no stream has been loaded" (by decide),
   (C7_chat_dispatch c7exec c7St "c1" (some "al") "hi all" (by decide) (by decide)).2
      (by decide)⟩

/-! Part: C6: streamload catch-up -/

/-- C6: a joining client receives a `streamload` catch-up event exactly
when the room it joins already has a playback state with a loaded
stream; in particular a join that first creates the playback state (no
existing entry) receives none. -/
theorem C6_streamload_catchup :
    ∀ (st : ServerState) (connId url : String),
      hasStreamloadTo connId (registerClient st connId url).2 = true
        ↔ ∃ pb, plLookup st.playbacks (roomNameOf url) = some pb ∧ pb.stream.isSome = true := by
  intro st connId url
  cases hpl : plLookup st.playbacks (roomNameOf url) with
  | none => simp [registerClient, hpl, hasStreamloadTo]
  | some pb =>
    cases hstr : pb.stream with
    | none => simp [registerClient, hpl, hstr, hasStreamloadTo]
    | some s => simp [registerClient, hpl, hstr, hasStreamloadTo]

/-! Part: C5: resync callback registered exactly once per room -/

/-- A single registration preserves the one-callback-per-room invariant. -/
theorem tickOnceInv_registerClient (st : ServerState) (connId url : String)
    (h : TickOnceInv st) : TickOnceInv (registerClient st connId url).1 := by
  intro r pb hpb
  cases hpl : plLookup st.playbacks (roomNameOf url) with
  | none =>
    simp only [registerClient, hpl] at hpb
    rw [plLookup_append] at hpb
    cases h2 : plLookup st.playbacks r with
    | some v =>
      rw [h2] at hpb
      simp only [Option.some.injEq] at hpb
      subst hpb
      exact h r v h2
    | none =>
      rw [h2] at hpb
      by_cases hr : roomNameOf url = r
      · simp only [plLookup, hr, if_pos] at hpb
        simp only [Option.some.injEq] at hpb
        subst hpb
        simp [newStreamPlayback]
      · simp [plLookup, hr] at hpb
  | some pb' =>
    cases hstr : pb'.stream with
    | none =>
      simp only [registerClient, hpl, hstr] at hpb
      exact h r pb hpb
    | some s0 =>
      simp only [registerClient, hpl, hstr] at hpb
      exact h r pb hpb

/-- A whole sequence of registrations preserves the invariant. -/
theorem tickOnceInv_applyJoins (joins : List (String × String)) :
    ∀ st : ServerState, TickOnceInv st → TickOnceInv (applyJoins st joins) := by
  induction joins with
  | nil => exact fun st h => h
  | cons j rest ih =>
    intro st h
    exact ih _ (tickOnceInv_registerClient st j.1 j.2 h)

/-- C5: a join to a room whose playback state already exists never
touches that state (so never re-registers the resync callback); a join
that first creates the playback state of a room registers exactly the one
callback of the creating connection; and over any sequence of
connections from the empty server, the playback state of every room holds
exactly one registered callback. -/
theorem C5_tick_callback_registered_once :
    (∀ (st : ServerState) (connId url r : String) (pb : PlaybackState),
      plLookup st.playbacks r = some pb →
      plLookup ((registerClient st connId url).1).playbacks r = some pb)
    ∧ (∀ (st : ServerState) (connId url : String),
      plLookup st.playbacks (roomNameOf url) = none →
      plLookup ((registerClient st connId url).1).playbacks (roomNameOf url)
        = some { newStreamPlayback with tickCallbacks := [connId] })
    ∧ (∀ (joins : List (String × String)) (r : String) (pb : PlaybackState),
      plLookup (applyJoins emptyServerState joins).playbacks r = some pb →
      pb.tickCallbacks.length = 1) := by
  refine ⟨?_, ?_, ?_⟩
  · intro st connId url r pb h
    cases hpl : plLookup st.playbacks (roomNameOf url) with
    | none =>
      simp only [registerClient, hpl]
      rw [plLookup_append, h]
    | some pb' =>
      cases hstr : pb'.stream with
      | none => simpa only [registerClient, hpl, hstr] using h
      | some s0 => simpa only [registerClient, hpl, hstr] using h
  · intro st connId url hpl
    simp only [registerClient, hpl]
    rw [plLookup_append, hpl]
    simp [plLookup, newStreamPlayback]
  · intro joins r pb h
    exact tickOnceInv_applyJoins joins emptyServerState
      (fun r0 pb0 h0 => Option.noConfusion h0) r pb h

/-- C5, witness: joining room "x" when its playback state exists leaves
that state (and its single callback) untouched; the first join to a room
creates the state with exactly the callback of the creating connection; after
two joins to the same room from the empty server, the room holds one
callback. -/
theorem C5_tick_callback_registered_once_witness :
    plLookup ((registerClient c5St "c2" "u/v/x").1).playbacks "x" = some c5pb
    ∧ plLookup ((registerClient emptyServerState "c1" "u/v/x").1).playbacks (roomNameOf "u/v/x")
        = some { newStreamPlayback with tickCallbacks := ["c1"] }
    ∧ ({ newStreamPlayback with tickCallbacks := ["c1"] } : PlaybackState).tickCallbacks.length = 1 :=
  ⟨C5_tick_callback_registered_once.1 c5St "c2" "u/v/x" "x" c5pb (by decide),
   C5_tick_callback_registered_once.2.1 emptyServerState "c1" "u/v/x" (by decide),
   C5_tick_callback_registered_once.2.2 [("c1", "u/v/x"), ("c2", "u/v/x")] "x"
     { newStreamPlayback with tickCallbacks := ["c1"] } (by decide)⟩

/-! Part: C8: room derivation from the request URL -/

/-- A URL with no `/v/` marker is assigned the lobby room. -/
theorem roomNameOf_no_segment (url : String)
    (h : ∀ i, i < url.data.length →
      ROOM_URL_SEGMENT.data.isPrefixOf (url.data.drop i) = false) :
    roomNameOf url = ROOM_DEFAULT_LOBBY := by
  unfold roomNameOf GetRoomNameFromRequest
  rw [goSplit_no_segment ROOM_URL_SEGMENT url h]

/-- A URL of the form `pre ++ "/v/" ++ name`, where the marker occurs
nowhere before the shown one and not inside `name`, is assigned `name`. -/
theorem roomNameOf_segment (pre name : String)
    (h1 : ∀ i, i < pre.data.length →
      ROOM_URL_SEGMENT.data.isPrefixOf ((pre ++ ROOM_URL_SEGMENT ++ name).data.drop i) = false)
    (h2 : ∀ i, i < name.data.length →
      ROOM_URL_SEGMENT.data.isPrefixOf (name.data.drop i) = false) :
    roomNameOf (pre ++ ROOM_URL_SEGMENT ++ name) = name := by
  unfold roomNameOf GetRoomNameFromRequest
  rw [goSplit_found ROOM_URL_SEGMENT pre name (by decide) h1 h2]

/-- C8: every connecting request joins the client to the room derived
from the request URL: the name following the `/v/` segment when it is
present, and the constant lobby room name when it is absent. -/
theorem C8_room_from_url :
    (∀ (st : ServerState) (connId url : String),
      ∃ c ∈ ((registerClient st connId url).1).clients,
        c.id = connId ∧ c.room = some (roomNameOf url))
    ∧ (∀ url : String,
      (∀ i, i < url.data.length →
        ROOM_URL_SEGMENT.data.isPrefixOf (url.data.drop i) = false) →
      roomNameOf url = ROOM_DEFAULT_LOBBY)
    ∧ (∀ pre name : String,
      (∀ i, i < pre.data.length →
        ROOM_URL_SEGMENT.data.isPrefixOf ((pre ++ ROOM_URL_SEGMENT ++ name).data.drop i) = false) →
      (∀ i, i < name.data.length →
        ROOM_URL_SEGMENT.data.isPrefixOf (name.data.drop i) = false) →
      roomNameOf (pre ++ ROOM_URL_SEGMENT ++ name) = name) := by
  refine ⟨?_, roomNameOf_no_segment, roomNameOf_segment⟩
  intro st connId url
  refine ⟨{ id := connId, username := none, room := some (roomNameOf url) }, ?_, rfl, rfl⟩
  cases hpl : plLookup st.playbacks (roomNameOf url) with
  | none => simp [registerClient, hpl]
  | some pb =>
    cases hstr : pb.stream with
    | none => simp [registerClient, hpl, hstr]
    | some s0 => simp [registerClient, hpl, hstr]

/-- C8, witness: a URL without the marker lands in the lobby, and a URL
whose marker is followed by "room1" lands in room "room1". -/
theorem C8_room_from_url_witness :
    roomNameOf "http://localhost/watch" = ROOM_DEFAULT_LOBBY
    ∧ roomNameOf ("http://h" ++ ROOM_URL_SEGMENT ++ "room1") = "room1" :=
  ⟨C8_room_from_url.2.1 "http://localhost/watch" (by decide),
   C8_room_from_url.2.2 "http://h" "room1" (by decide) (by decide)⟩

end StreamingServer
